import Mathlib

/-
Verification of the client-side character logic of a proxy re-encryption
network (file nucypher/characters/lawful.py).  Byte strings are modelled as
`List Nat` (one entry per byte), external collaborators (keccak digest,
network middleware responses, the random sampler, the node-record splitter)
are modelled as explicit function or data parameters, and Python exceptions
become explicit error constructors of `Except` results or outcome types.
-/

namespace NuCypher

/-! ## Policy identifiers (Bob.construct_policy_hrac / construct_hrac_and_map_id) -/

/-- Code of one lowercase hex digit, as produced by Python bytes.hex(). -/
def hexDigit (n : Nat) : Char :=
  if n < 10 then Char.ofNat (48 + n) else Char.ofNat (87 + n)

/-- Two lowercase hex characters of one byte, as produced by Python bytes.hex(). -/
def byteToHex (b : Nat) : List Char :=
  [hexDigit (b / 16), hexDigit (b % 16)]

/-- Python bytes.hex(): lowercase hex encoding of a byte string. -/
def hexEncode (bs : List Nat) : List Char :=
  (bs.map byteToHex).flatten

/-- Bob.construct_policy_hrac: keccak over delegator verifying key bytes,
followed by Bob's stamp bytes, followed by the label.  The keccak digest
lives outside this file's source slice, so it is passed as a function. -/
def construct_policy_hrac (keccak : List Nat → List Nat)
    (verifying_key stamp label : List Nat) : List Nat :=
  keccak (verifying_key ++ stamp ++ label)

/-- Bob.construct_hrac_and_map_id: the HRAC together with the map id, the
latter being the hex encoding of keccak over verifying key bytes followed by
the HRAC. -/
def construct_hrac_and_map_id (keccak : List Nat → List Nat)
    (verifying_key stamp label : List Nat) : List Nat × List Char :=
  let hrac := construct_policy_hrac keccak verifying_key stamp label
  (hrac, hexEncode (keccak (verifying_key ++ hrac)))

/-! ## Bob._pick_treasure_map -/

/-- The exceptions Bob._pick_treasure_map can raise: the two distinct
ValueError branches, and the KeyError of the treasure_maps dict lookup. -/
inductive PickErr
  | valueErrorNeedOne
  | valueErrorBoth
  | keyError
deriving DecidableEq, Repr

/-- Python dict lookup on an association list (first binding wins). -/
def lookupMap : List (Nat × List Nat) → Nat → Option (List Nat)
  | [], _ => none
  | (k, v) :: rest, key => if k = key then some v else lookupMap rest key

/-- Bob._pick_treasure_map: sorts out the treasure_map / map_id arguments.
`maps` is Bob's locally stored treasure_maps dict. -/
def _pick_treasure_map (maps : List (Nat × List Nat))
    (treasure_map : Option (List Nat)) (map_id : Option Nat) :
    Except PickErr (List Nat) :=
  match treasure_map with
  | none =>
    match map_id with
    | some mid =>
      match lookupMap maps mid with
      | some tm => .ok tm
      | none => .error .keyError
    | none => .error .valueErrorNeedOne
  | some tm =>
    match map_id with
    | some _ => .error .valueErrorBoth
    | none => .ok tm

/-! ## Bob.generate_work_orders and the saved work-order history -/

/-- Bob's _saved_work_orders history: for each node id, the set of capsule
keys of its per-node dict (WorkOrderHistory behaves as a defaultdict of
dicts; we track only the key sets, which is what the dedup check reads). -/
abbrev Saved := List (Nat × List Nat)

/-- Key set of the per-node dict (empty for an absent node, as with a
defaultdict). -/
def savedLookup : Saved → Nat → List Nat
  | [], _ => []
  | (k, caps) :: rest, nid => if k = nid then caps else savedLookup rest nid

/-- Setting key `cap` in the per-node dict of `nid`: the key set gains `cap`
if it was absent, and an absent node gets a fresh singleton dict. -/
def savedInsert : Saved → Nat → Nat → Saved
  | [], nid, cap => [(nid, [cap])]
  | (k, caps) :: rest, nid, cap =>
    if k = nid then (k, if caps.contains cap then caps else caps ++ [cap]) :: rest
    else (k, caps) :: savedInsert rest nid cap

/-- Result of Bob.generate_work_orders: the generated orders (node id paired
with the capsules included in that node's work order, in generation order)
and the updated saved work-order history. -/
structure GWOResult where
  orders : List (Nat × List Nat)
  saved : Saved
deriving DecidableEq, Repr

/-- The destination loop of Bob.generate_work_orders.  For each destination,
the capsules not already keyed against that node are included; when any are,
a work order is produced and the history records *only the final element of
the capsules argument* (the Python loop variable leaks, per the in-code
remark that it always takes the last capsule).  After each destination the
loop stops when num_ursulas equals the number of generated orders. -/
def generate_work_orders_go (capsules : List Nat) (num_ursulas : Option Nat) :
    List (Nat × Nat) → Saved → List (Nat × List Nat) → GWOResult
  | [], saved, acc => ⟨acc, saved⟩
  | (node_id, _arrangement_id) :: rest, saved, acc =>
    let capsules_to_include := capsules.filter (fun c => !(savedLookup saved node_id).contains c)
    let acc2 := if capsules_to_include.isEmpty then acc else acc ++ [(node_id, capsules_to_include)]
    let saved2 :=
      if capsules_to_include.isEmpty then saved
      else savedInsert saved node_id (capsules.getLastD 0)
    if num_ursulas = some acc2.length then ⟨acc2, saved2⟩
    else generate_work_orders_go capsules num_ursulas rest saved2 acc2

/-- Bob.generate_work_orders over the treasure map's destinations (node id,
arrangement id), starting from the current saved history. -/
def generate_work_orders (destinations : List (Nat × Nat)) (saved : Saved)
    (capsules : List Nat) (num_ursulas : Option Nat) : GWOResult :=
  generate_work_orders_go capsules num_ursulas destinations saved []

/-- Bob.get_reencrypted_cfrags history update: once a response for a work
order arrives, every capsule of the order is recorded against the node. -/
def record_work_order_response (saved : Saved) (node_id : Nat)
    (capsules : List Nat) : Saved :=
  capsules.foldl (fun s c => savedInsert s node_id c) saved

/-! ## Bob.retrieve: the work-order dispatch loop -/

/-- One generated work order together with the network's behaviour when it
is dispatched: `none` models requests.exceptions.ConnectTimeout; `some
(cfragId, valid)` models a returned cfrag, `valid` telling whether
attach_cfrag accepts it or raises UmbralCorrectnessError. -/
structure WOEntry where
  ursula : Nat
  response : Option (Nat × Bool)
deriving DecidableEq, Repr

/-- How Bob.retrieve's dispatch loop ends: break with enough cfrags attached
(then decryption proceeds), loop exhaustion raising Ursula.NotEnoughUrsulas,
or Bob.IncorrectCFragReceived carrying the IndisputableEvidence triple
(capsule, cfrag, work order's ursula) built by Bob.collect_evidence. -/
inductive RetrieveResult
  | success (attached : Nat)
  | notEnoughUrsulas
  | incorrectCFrag (capsule cfrag ursula : Nat)
deriving DecidableEq, Repr

/-- Bob.retrieve's loop over generated work orders, returning the outcome
and the number of reencrypt RPCs issued.  A timeout skips to the next
order; a valid cfrag is attached and the loop breaks once the attached
count reaches m; an invalid cfrag raises IncorrectCFragReceived at once. -/
def retrieveLoop (m capsuleId : Nat) :
    List WOEntry → Nat → RetrieveResult × Nat
  | [], _ => (.notEnoughUrsulas, 0)
  | wo :: rest, attached =>
    match wo.response with
    | none =>
      let r := retrieveLoop m capsuleId rest attached
      (r.1, r.2 + 1)
    | some (cf, valid) =>
      if valid then
        if m ≤ attached + 1 then (.success (attached + 1), 1)
        else
          let r := retrieveLoop m capsuleId rest (attached + 1)
          (r.1, r.2 + 1)
      else (.incorrectCFrag capsuleId cf wo.ursula, 1)

/-- A work order whose dispatch returns a cfrag that fails the correctness
check. -/
def woIsBad (e : WOEntry) : Bool :=
  match e.response with
  | some (_, false) => true
  | _ => false

/-- A work order whose dispatch returns a cfrag that attaches correctly. -/
def woIsGood (e : WOEntry) : Bool :=
  match e.response with
  | some (_, true) => true
  | _ => false

/-- Number of work orders in the list that would attach a valid cfrag. -/
def countGood (l : List WOEntry) : Nat := (l.filter woIsGood).length

/-! ## Alice.revoke -/

/-- Responses the middleware's revoke_arrangement can produce for a known
node: success, NotFound, or UnexpectedResponse. -/
inductive RevResp
  | respOk
  | respNotFound
  | respUnexpected
deriving DecidableEq, Repr

/-- The error kind recorded in Alice.revoke's failure dict. -/
inductive RevErrKind
  | notFound
  | unexpectedResponse
deriving DecidableEq, Repr

/-- How Alice.revoke ends: NotEnoughTeachers from the blocking wait, a
KeyError from looking up a still-unknown node, or the returned failure
dict. -/
inductive RevokeOutcome
  | notEnoughTeachers
  | keyError
  | done (failed : List (Nat × RevErrKind))
deriving DecidableEq, Repr

/-- known_nodes lookup: the revocation response of a known node, none when
the node is unknown. -/
def lookupNode : List (Nat × RevResp) → Nat → Option RevResp
  | [], _ => none
  | (k, r) :: rest, nid => if k = nid then some r else lookupNode rest nid

/-- Alice.revoke's revocation threshold, (n - m) + 1. -/
def revocationThreshold (n m : Int) : Int := (n - m) + 1

/-- Alice.revoke's allow_missing argument, n minus the threshold. -/
def revokeAllowMissing (n m : Int) : Int := n - revocationThreshold n m

/-- Modelled from the spec: block_until_specific_nodes_are_known is defined
outside this source slice; per the spec it blocks until at most
allow_missing of the target addresses are still unknown and raises
NotEnoughTeachers on timeout.  We model its outcome on the final known set:
the wait succeeds exactly when the number of still-unknown addresses is
within allow_missing. -/
def blockSucceeds (revokable : List Nat) (known : List (Nat × RevResp))
    (allowMissing : Int) : Bool :=
  ((revokable.filter (fun a => (lookupNode known a).isNone)).length : Int) ≤ allowMissing

/-- The revocation call loop of Alice.revoke: each revokable address is
looked up in known_nodes (KeyError when absent) and the middleware call's
failure, if any, is recorded against the address. -/
def revoke_calls (known : List (Nat × RevResp)) : List Nat → RevokeOutcome
  | [] => .done []
  | a :: rest =>
    match lookupNode known a with
    | none => .keyError
    | some resp =>
      match revoke_calls known rest with
      | .done fs =>
        match resp with
        | .respOk => .done fs
        | .respNotFound => .done ((a, .notFound) :: fs)
        | .respUnexpected => .done ((a, .unexpectedResponse) :: fs)
      | e => e

/-- Alice.revoke: wait (with tolerance n - threshold) for the revokable
addresses to be known, then issue the revocation calls. -/
def revoke (n m : Int) (revokable : List Nat)
    (known : List (Nat × RevResp)) : RevokeOutcome :=
  let threshold := revocationThreshold n m
  if blockSucceeds revokable known (n - threshold) then revoke_calls known revokable
  else .notEnoughTeachers

/-! ## Bob.get_treasure_map_from_known_ursulas -/

/-- What one known node does when asked for the map: the request raises
NodeSeemsToBeDown, or an HTTP response with a status code and body comes
back. -/
inductive NodeReply
  | down
  | reply (status : Nat) (content : List Nat)
deriving DecidableEq, Repr

/-- The exceptions of Bob.get_treasure_map_from_known_ursulas: a map that
fails its signature check on decoding, or TreasureMap.NowhereToBeFound when
every node has been tried. -/
inductive GetMapErr
  | invalidSignature
  | nowhereToBeFound
deriving DecidableEq, Repr

/-- A node counts as serving the map when it answers 200 with a non-empty
body. -/
def servesMap : NodeReply → Bool
  | .down => false
  | .reply s c => s == 200 && !c.isEmpty

/-- Bob.get_treasure_map_from_known_ursulas over the (already shuffled)
known nodes: skip nodes that are down or answer without a 200 and content;
decode the first that serves the map (TreasureMap.from_bytes is external,
passed as `decodeMap`; its InvalidSignature propagates); raise
NowhereToBeFound when the nodes are exhausted. -/
def get_treasure_map_from_known_ursulas
    (decodeMap : List Nat → Except Unit (List Nat)) :
    List NodeReply → Except GetMapErr (List Nat)
  | [] => .error .nowhereToBeFound
  | .down :: rest => get_treasure_map_from_known_ursulas decodeMap rest
  | .reply s c :: rest =>
    if s = 200 ∧ c ≠ [] then
      match decodeMap c with
      | .ok tm => .ok tm
      | .error _ => .error .invalidSignature
    else get_treasure_map_from_known_ursulas decodeMap rest

/-! ## Ursula.from_bytes / Ursula.batch_from_bytes -/

/-- The message carried by Ursula.IsFromTheFuture: the offending and the
supported version, and, when a 20-byte address could be salvaged from the
payload, the display pair (checksum address, nickname). -/
structure FutureMessage where
  version : Nat
  learnerVersion : Nat
  display : Option (Nat × Nat)
deriving DecidableEq, Repr

/-- Decoding errors of Ursula.from_bytes: IsFromTheFuture, or a
BytestringSplittingError from the underlying splitters. -/
inductive NodeDecodeErr
  | isFromTheFuture (msg : FutureMessage)
  | splitError
deriving DecidableEq, Repr

/-- Ursula.from_bytes after the version has been read.  When the version
exceeds LEARNER_VERSION (`lv`), IsFromTheFuture is raised; a leading
20-byte canonical address, when present, is salvaged into the message as
checksum address and nickname (to_checksum_address and nickname_from_seed
are external, passed as functions).  Otherwise the external node splitter
decodes the payload. -/
def ursula_from_bytes_core (lv : Nat) (toChecksum : List Nat → Nat)
    (nicknameOf : Nat → Nat)
    (splitNode : List Nat → Except NodeDecodeErr (List Nat))
    (version : Nat) (payload : List Nat) : Except NodeDecodeErr (List Nat) :=
  if lv < version then
    if 20 ≤ payload.length then
      let ck := toChecksum (payload.take 20)
      .error (.isFromTheFuture ⟨version, lv, some (ck, nicknameOf ck)⟩)
    else .error (.isFromTheFuture ⟨version, lv, none⟩)
  else splitNode payload

/-- Ursula.from_bytes with the version included in the bytestring: the
leading big-endian u16 is the version, the rest the payload. -/
def ursula_from_bytes (lv : Nat) (toChecksum : List Nat → Nat)
    (nicknameOf : Nat → Nat)
    (splitNode : List Nat → Except NodeDecodeErr (List Nat)) :
    List Nat → Except NodeDecodeErr (List Nat)
  | b0 :: b1 :: payload =>
    ursula_from_bytes_core lv toChecksum nicknameOf splitNode (b0 * 256 + b1) payload
  | _ => .error .splitError

/-- The record loop of Ursula.batch_from_bytes: each record's leading u16
is its version; IsFromTheFuture is caught and either re-raised (fail_fast)
or logged and skipped; other decoding errors propagate; decoded nodes are
collected in input order. -/
def batch_from_bytes_go (lv : Nat) (toChecksum : List Nat → Nat)
    (nicknameOf : Nat → Nat)
    (splitNode : List Nat → Except NodeDecodeErr (List Nat))
    (failFast : Bool) : List (List Nat) → Except NodeDecodeErr (List (List Nat))
  | [] => .ok []
  | r :: rest =>
    match r with
    | b0 :: b1 :: nodeBytes =>
      match ursula_from_bytes_core lv toChecksum nicknameOf splitNode (b0 * 256 + b1) nodeBytes with
      | .error (.isFromTheFuture m) =>
        if failFast then .error (.isFromTheFuture m)
        else batch_from_bytes_go lv toChecksum nicknameOf splitNode failFast rest
      | .error e => .error e
      | .ok u =>
        match batch_from_bytes_go lv toChecksum nicknameOf splitNode failFast rest with
        | .ok us => .ok (u :: us)
        | .error e => .error e
    | _ => .error .splitError

/-- Ursula.batch_from_bytes over the dispensed records. -/
def batch_from_bytes (lv : Nat) (toChecksum : List Nat → Nat)
    (nicknameOf : Nat → Nat)
    (splitNode : List Nat → Except NodeDecodeErr (List Nat))
    (records : List (List Nat)) (failFast : Bool) :
    Except NodeDecodeErr (List (List Nat)) :=
  batch_from_bytes_go lv toChecksum nicknameOf splitNode failFast records

/-! ## Alice.grant (federated node-count check and sampling) -/

/-- How the federated branch of Alice.grant proceeds: the ValueError it
raises when the blocking wait fails, the NotEnoughTeachers exception it
never raises (present so the spec's claim can be stated), or proceeding to
make_arrangements with the final handpicked set. -/
inductive GrantOutcome
  | notEnoughTeachers
  | valueError
  | proceed (handpicked : List Nat)
deriving DecidableEq, Repr

/-- Python set.update on lists standing for sets. -/
def listUnion (xs ys : List Nat) : List Nat :=
  xs ++ ys.filter (fun y => !xs.contains y)

/-- The federated node-count check of Alice.grant.  `knownBefore` is the
known-node set at entry; when it has fewer than n nodes the blocking wait
runs (modelled from the spec: block_until_number_of_known_nodes_is returns
a good_to_go sentinel, false on timeout) and a false sentinel raises
ValueError; on success, when the handpicked set is still short of n, the
missing count is drawn from the post-wait known set `knownAfter` by the
external sampler (random.sample) and merged in. -/
def grant_federated_selection (n : Nat) (knownBefore knownAfter : List Nat)
    (goodToGo : Bool) (handpicked : List Nat)
    (sample : List Nat → Nat → List Nat) : GrantOutcome :=
  if knownBefore.length < n then
    if !goodToGo then .valueError
    else if handpicked.length < n then
      .proceed (listUnion handpicked (sample knownAfter (n - handpicked.length)))
    else .proceed handpicked
  else .proceed handpicked

/-- One concrete possible draw of the external sampler, used to instantiate
the model at concrete inputs. -/
def sampleTake (pop : List Nat) (k : Nat) : List Nat := pop.take k

/-- The version field of a batch record given as (b0, b1, payload). -/
def recVersion (r : Nat × Nat × List Nat) : Nat := r.1 * 256 + r.2.1

/-- The wire bytes of a batch record given as (b0, b1, payload). -/
def recBytes (r : Nat × Nat × List Nat) : List Nat := r.1 :: r.2.1 :: r.2.2

/-- The successfully decoded node of a decode result, if any. -/
def exceptToOption : Except NodeDecodeErr (List Nat) → Option (List Nat)
  | .ok u => some u
  | .error _ => none

/-! ## Theorems -/

/-- Claim C1, evaluated at the failing input.  One proxy (id 0), two
capsules (1 and 2), empty history, no responses observed anywhere: the
first generate_work_orders call issues a work order to proxy 0 containing
capsules 1 and 2, but records only capsule 2 in the history; a second call
therefore issues a second work order to proxy 0 that again contains capsule
1, although no response for the (proxy 0, capsule 1) pair was ever
recorded. -/
theorem C1_generate_work_orders_duplicate_pair :
    (generate_work_orders [(0, 0)] [] [1, 2] none).orders = [(0, [1, 2])]
    ∧ (generate_work_orders [(0, 0)] [] [1, 2] none).saved = [(0, [2])]
    ∧ (generate_work_orders [(0, 0)]
        (generate_work_orders [(0, 0)] [] [1, 2] none).saved [1, 2] none).orders
        = [(0, [1])] := by
  decide

/-- Claim C4: Bob.construct_hrac_and_map_id is a pure function of the
delegator verifying key, the delegatee stamp and the label; the HRAC is the
keccak digest (32 bytes whenever the digest function yields 32 bytes) of
verifying_key bytes followed by the stamp and the label, and the map id is
the hex encoding of the keccak digest of verifying_key bytes followed by
the HRAC; equal inputs yield equal outputs. -/
theorem C4_hrac_map_id_deterministic (keccak : List Nat → List Nat)
    (vk stamp label : List Nat) (h32 : ∀ b, (keccak b).length = 32) :
    construct_hrac_and_map_id keccak vk stamp label
      = (keccak (vk ++ stamp ++ label),
         hexEncode (keccak (vk ++ keccak (vk ++ stamp ++ label))))
    ∧ (construct_hrac_and_map_id keccak vk stamp label).1.length = 32
    ∧ ∀ vk2 stamp2 label2, vk2 = vk → stamp2 = stamp → label2 = label →
        construct_hrac_and_map_id keccak vk2 stamp2 label2
          = construct_hrac_and_map_id keccak vk stamp label := by
  refine ⟨rfl, h32 _, ?_⟩
  rintro vk2 stamp2 label2 rfl rfl rfl
  rfl

/-- Witness for C4 at a concrete digest function and concrete inputs. -/
theorem C4_hrac_map_id_deterministic_witness :
    (construct_hrac_and_map_id (fun _ => List.range 32) [1] [2] [3]).1.length = 32 :=
  (C4_hrac_map_id_deterministic (fun _ => List.range 32) [1] [2] [3]
    (fun _ => List.length_range 32)).2.1

/-- Claim C9: Bob._pick_treasure_map raises ValueError when neither or both
of treasure_map and map_id are supplied; a supplied treasure_map is
returned as-is; a supplied map_id selects the locally stored map (the dict
lookup can raise KeyError for an unknown id, but never a ValueError from
argument selection). -/
theorem C9_pick_treasure_map (maps : List (Nat × List Nat)) (tm : List Nat)
    (mid : Nat) :
    _pick_treasure_map maps none none = .error .valueErrorNeedOne
    ∧ _pick_treasure_map maps (some tm) (some mid) = .error .valueErrorBoth
    ∧ _pick_treasure_map maps (some tm) none = .ok tm
    ∧ _pick_treasure_map maps none (some mid)
        = (match lookupMap maps mid with
           | some t => .ok t
           | none => .error .keyError)
    ∧ ∀ e, _pick_treasure_map maps none (some mid) = .error e → e = .keyError := by
  refine ⟨rfl, rfl, rfl, ?_, ?_⟩
  · cases h : lookupMap maps mid <;> simp [_pick_treasure_map, h]
  · intro e he
    cases h : lookupMap maps mid <;> simp [_pick_treasure_map, h] at he
    exact he.symm

/-- Witness for C9 at a concrete stored-map dict, map and id. -/
theorem C9_pick_treasure_map_witness :
    _pick_treasure_map [(4, [9])] none none = .error .valueErrorNeedOne
    ∧ _pick_treasure_map [(4, [9])] (some [5]) (some 4) = .error .valueErrorBoth
    ∧ _pick_treasure_map [(4, [9])] (some [5]) none = .ok [5]
    ∧ (∀ e, _pick_treasure_map [(4, [9])] none (some 4) = .error e → e = .keyError) :=
  ⟨(C9_pick_treasure_map [(4, [9])] [5] 4).1,
   (C9_pick_treasure_map [(4, [9])] [5] 4).2.1,
   (C9_pick_treasure_map [(4, [9])] [5] 4).2.2.1,
   (C9_pick_treasure_map [(4, [9])] [5] 4).2.2.2.2⟩

/-- Helper: with no misbehaving proxy among the work orders and too few
valid cfrags to reach the threshold from the current attached count, the
dispatch loop exhausts every order and raises NotEnoughUrsulas. -/
theorem retrieveLoop_exhaust (m c : Nat) :
    ∀ (l : List WOEntry) (attached : Nat), (∀ e ∈ l, woIsBad e = false) →
    attached + countGood l < m →
    retrieveLoop m c l attached = (.notEnoughUrsulas, l.length) := by
  intro l
  induction l with
  | nil => intro attached _ _; rfl
  | cons wo rest ih =>
    intro attached hbad hcnt
    have hbw : woIsBad wo = false := hbad wo (List.mem_cons_self wo rest)
    have hbr : ∀ e ∈ rest, woIsBad e = false :=
      fun e he => hbad e (List.mem_cons_of_mem wo he)
    match hwo : wo.response with
    | none =>
      have hg : woIsGood wo = false := by simp [woIsGood, hwo]
      have hcg : countGood (wo :: rest) = countGood rest := by
        simp [countGood, List.filter_cons, hg]
      rw [hcg] at hcnt
      simp only [retrieveLoop, hwo, ih attached hbr hcnt, List.length_cons]
    | some (cf, valid) =>
      cases valid with
      | false => simp [woIsBad, hwo] at hbw
      | true =>
        have hcg : countGood (wo :: rest) = countGood rest + 1 := by
          simp [countGood, List.filter_cons, woIsGood, hwo]
        rw [hcg] at hcnt
        have hlt : ¬ m ≤ attached + 1 := by omega
        have hrec : attached + 1 + countGood rest < m := by omega
        simp only [retrieveLoop, hwo, if_neg hlt, if_pos rfl,
          ih (attached + 1) hbr hrec, List.length_cons]
        simp

/-- Helper: whenever the dispatch loop breaks with a success from an
attached count below the threshold, the success count is exactly m, and
appending further work orders changes neither the result nor the number of
RPCs issued. -/
theorem retrieveLoop_success_stable (m c : Nat) (extra : List WOEntry) :
    ∀ (l : List WOEntry) (attached a k : Nat), attached < m →
    retrieveLoop m c l attached = (.success a, k) →
    a = m ∧ retrieveLoop m c (l ++ extra) attached = (.success a, k) := by
  intro l
  induction l with
  | nil =>
    intro attached a k _ h
    exact absurd h (by simp [retrieveLoop])
  | cons wo rest ih =>
    intro attached a k hlt h
    match hwo : wo.response with
    | none =>
      rcases hr : retrieveLoop m c rest attached with ⟨r1, r2⟩
      simp only [retrieveLoop, hwo, hr] at h
      injection h with h1 h2
      obtain ⟨ham, happ⟩ := ih attached a r2 hlt (by rw [hr, h1])
      refine ⟨ham, ?_⟩
      simp only [List.cons_append, retrieveLoop, hwo]
      simp [happ, h2]
    | some (cf, valid) =>
      cases valid with
      | false =>
        simp only [retrieveLoop, hwo, Bool.false_eq_true, if_false] at h
        exact absurd h (by simp)
      | true =>
        by_cases hm1 : m ≤ attached + 1
        · simp only [retrieveLoop, hwo, if_true, if_pos hm1] at h
          injection h with h1 h2
          injection h1 with h1
          refine ⟨by omega, ?_⟩
          simp only [List.cons_append, retrieveLoop, hwo, if_true, if_pos hm1]
          rw [h1, h2]
        · rcases hr : retrieveLoop m c rest (attached + 1) with ⟨r1, r2⟩
          simp only [retrieveLoop, hwo, if_true, if_neg hm1, hr] at h
          injection h with h1 h2
          obtain ⟨ham, happ⟩ := ih (attached + 1) a r2 (by omega) (by rw [hr, h1])
          refine ⟨ham, ?_⟩
          simp only [List.cons_append, retrieveLoop, hwo, if_true, if_neg hm1]
          simp [happ, h2]

/-- Helper: with no misbehaving proxy in the prefix and too few valid
cfrags there to reach the threshold, the dispatch loop reaches the
misbehaving work order, raises IncorrectCFragReceived with the evidence
triple, and issues no RPC beyond it. -/
theorem retrieveLoop_bad_halts (m c u cf : Nat) (post : List WOEntry) :
    ∀ (pre : List WOEntry) (attached : Nat), (∀ e ∈ pre, woIsBad e = false) →
    attached + countGood pre < m →
    retrieveLoop m c (pre ++ ⟨u, some (cf, false)⟩ :: post) attached
      = (.incorrectCFrag c cf u, pre.length + 1) := by
  intro pre
  induction pre with
  | nil =>
    intro attached _ _
    simp [retrieveLoop]
  | cons wo rest ih =>
    intro attached hbad hcnt
    have hbw : woIsBad wo = false := hbad wo (List.mem_cons_self wo rest)
    have hbr : ∀ e ∈ rest, woIsBad e = false :=
      fun e he => hbad e (List.mem_cons_of_mem wo he)
    match hwo : wo.response with
    | none =>
      have hg : woIsGood wo = false := by simp [woIsGood, hwo]
      have hcg : countGood (wo :: rest) = countGood rest := by
        simp [countGood, List.filter_cons, hg]
      rw [hcg] at hcnt
      simp only [List.cons_append, retrieveLoop, hwo, List.append_eq,
        ih attached hbr hcnt, List.length_cons]
    | some (cf2, valid) =>
      cases valid with
      | false => simp [woIsBad, hwo] at hbw
      | true =>
        have hcg : countGood (wo :: rest) = countGood rest + 1 := by
          simp [countGood, List.filter_cons, woIsGood, hwo]
        rw [hcg] at hcnt
        have hlt : ¬ m ≤ attached + 1 := by omega
        have hrec : attached + 1 + countGood rest < m := by omega
        simp only [List.cons_append, retrieveLoop, hwo, if_true, if_neg hlt,
          List.append_eq, ih (attached + 1) hbr hrec, List.length_cons]

/-- Claim C2: in Bob.retrieve's dispatch loop with threshold m (at least
one), started on a fresh capsule: when every work order either times out or
yields a valid cfrag and the valid ones number fewer than m, the loop
exhausts all generated work orders and raises Ursula.NotEnoughUrsulas; and
whenever the loop ends in success, exactly m cfrags are attached and any
further work orders appended behind the stopping point change neither the
outcome nor the number of reencrypt RPCs issued (dispatch has ceased). -/
theorem C2_retrieve_threshold (m c : Nat) (entries extra : List WOEntry)
    (hm : 1 ≤ m) :
    ((∀ e ∈ entries, woIsBad e = false) → countGood entries < m →
      retrieveLoop m c entries 0 = (.notEnoughUrsulas, entries.length))
    ∧ (∀ a k, retrieveLoop m c entries 0 = (.success a, k) →
        a = m ∧ retrieveLoop m c (entries ++ extra) 0 = (.success a, k)) := by
  constructor
  · intro hb hcnt
    exact retrieveLoop_exhaust m c entries 0 hb (by omega)
  · intro a k h
    exact retrieveLoop_success_stable m c extra entries 0 a k (by omega) h

/-- Witness for C2: with m = 2, a timeout plus a single valid cfrag
exhausts into NotEnoughUrsulas; with two valid cfrags followed by an extra
order, the loop succeeds after two RPCs and the extra order is never
dispatched. -/
theorem C2_retrieve_threshold_witness :
    retrieveLoop 2 9 [⟨1, some (10, true)⟩, ⟨2, none⟩] 0 = (.notEnoughUrsulas, 2)
    ∧ retrieveLoop 2 9
        ([⟨1, some (10, true)⟩, ⟨4, some (12, true)⟩] ++ [⟨5, some (13, true)⟩]) 0
        = (.success 2, 2) := by
  constructor
  · exact (C2_retrieve_threshold 2 9 [⟨1, some (10, true)⟩, ⟨2, none⟩] []
      (by decide)).1 (by decide) (by decide)
  · exact ((C2_retrieve_threshold 2 9 [⟨1, some (10, true)⟩, ⟨4, some (12, true)⟩]
      [⟨5, some (13, true)⟩] (by decide)).2 2 2 (by decide)).2

/-- Claim C3: when the dispatch loop of Bob.retrieve meets a work order
whose returned cfrag fails the correctness check (after a prefix of orders
none of which misbehaved and whose valid cfrags were still short of the
threshold), retrieval halts at that order: the outcome is
IncorrectCFragReceived whose IndisputableEvidence is exactly (the capsule,
the offending cfrag, the work order's ursula), and the RPC count stops at
the offending order, whatever work orders remain after it. -/
theorem C3_incorrect_cfrag_evidence (m c u cf : Nat) (pre post : List WOEntry)
    (hb : ∀ e ∈ pre, woIsBad e = false) (hcnt : countGood pre < m) :
    retrieveLoop m c (pre ++ ⟨u, some (cf, false)⟩ :: post) 0
      = (.incorrectCFrag c cf u, pre.length + 1) :=
  retrieveLoop_bad_halts m c u cf post pre 0 hb (by omega)

/-- Witness for C3: with m = 2, one valid cfrag and then a bad one from
ursula 7, retrieval halts after two RPCs with evidence (capsule 9, cfrag
13, ursula 7), never dispatching the remaining order. -/
theorem C3_incorrect_cfrag_evidence_witness :
    retrieveLoop 2 9
        ([⟨1, some (10, true)⟩] ++ ⟨7, some (13, false)⟩ :: [⟨3, some (11, true)⟩]) 0
      = (.incorrectCFrag 9 13 7, 2) :=
  C3_incorrect_cfrag_evidence 2 9 7 13 [⟨1, some (10, true)⟩] [⟨3, some (11, true)⟩]
    (by decide) (by decide)

/-- Helper: each revokable address is either still unknown or known, so the
two filtered counts sum to the total. -/
theorem filter_known_split (known : List (Nat × RevResp)) :
    ∀ revokable : List Nat,
    (revokable.filter (fun a => (lookupNode known a).isNone)).length
      + (revokable.filter (fun a => (lookupNode known a).isSome)).length
      = revokable.length := by
  intro revokable
  induction revokable with
  | nil => rfl
  | cons a rest ih =>
    cases h : lookupNode known a <;>
      simp [List.filter_cons, h] <;> omega

/-- Helper: the revocation call loop never raises NotEnoughTeachers. -/
theorem revoke_calls_ne_notEnoughTeachers (known : List (Nat × RevResp)) :
    ∀ l : List Nat, revoke_calls known l ≠ .notEnoughTeachers := by
  intro l
  induction l with
  | nil => simp [revoke_calls]
  | cons a rest ih =>
    simp only [revoke_calls]
    cases h : lookupNode known a with
    | none => simp
    | some resp =>
      cases hr : revoke_calls known rest with
      | notEnoughTeachers => exact absurd hr ih
      | keyError => simp
      | done fs => cases resp <;> simp

/-- Claim C5: Alice.revoke computes the revocation threshold as (n - m) + 1
and passes allow_missing = n - threshold = m - 1 to the blocking wait; with
one revokable address per proxy of the policy (so n of them), the wait lets
revocation calls be issued exactly when at least threshold of the addressed
proxies are known, and otherwise NotEnoughTeachers is raised before any
call. -/
theorem C5_revocation_threshold (n m : Int) (revokable : List Nat)
    (known : List (Nat × RevResp)) (hn : (revokable.length : Int) = n) :
    revocationThreshold n m = (n - m) + 1
    ∧ revokeAllowMissing n m = m - 1
    ∧ (revoke n m revokable known ≠ .notEnoughTeachers ↔
        revocationThreshold n m ≤
          ((revokable.filter (fun a => (lookupNode known a).isSome)).length : Int)) := by
  refine ⟨rfl, ?_, ?_⟩
  · simp only [revokeAllowMissing, revocationThreshold]
    ring
  · have hsplit := filter_known_split known revokable
    constructor
    · intro hne
      by_cases hb : blockSucceeds revokable known (n - revocationThreshold n m) = true
      · simp only [blockSucceeds, decide_eq_true_eq] at hb
        simp only [revocationThreshold] at hb ⊢
        omega
      · exact absurd (by simp [revoke, hb]) hne
    · intro hge
      have hb : blockSucceeds revokable known (n - revocationThreshold n m) = true := by
        simp only [blockSucceeds, decide_eq_true_eq]
        simp only [revocationThreshold] at hge ⊢
        omega
      simp only [revoke, hb, if_true]
      exact revoke_calls_ne_notEnoughTeachers known revokable

/-- Witness for C5: a policy with n = 3, m = 2 tolerates one missing proxy;
with two of the three addressed proxies known the wait passes and the
revocation calls are issued. -/
theorem C5_revocation_threshold_witness :
    revokeAllowMissing 3 2 = 2 - 1
    ∧ (revoke 3 2 [1, 2, 3] [(1, .respOk), (2, .respNotFound)] ≠ .notEnoughTeachers ↔
        revocationThreshold 3 2 ≤
          (([1, 2, 3].filter
            (fun a => (lookupNode [(1, .respOk), (2, .respNotFound)] a).isSome)).length : Int)) :=
  ⟨(C5_revocation_threshold 3 2 [1, 2, 3] [(1, .respOk), (2, .respNotFound)]
      (by decide)).2.1,
   (C5_revocation_threshold 3 2 [1, 2, 3] [(1, .respOk), (2, .respNotFound)]
      (by decide)).2.2⟩

/-- Helper: nodes that are down or answer without a 200 status and content
are skipped without affecting the rest of the iteration. -/
theorem gtm_skip_failing (decodeMap : List Nat → Except Unit (List Nat)) :
    ∀ (pre rest : List NodeReply), (∀ r ∈ pre, servesMap r = false) →
    get_treasure_map_from_known_ursulas decodeMap (pre ++ rest)
      = get_treasure_map_from_known_ursulas decodeMap rest := by
  intro pre
  induction pre with
  | nil => intro rest _; rfl
  | cons r pres ih =>
    intro rest hserve
    have hr : servesMap r = false := hserve r (List.mem_cons_self r pres)
    have hrest : ∀ x ∈ pres, servesMap x = false :=
      fun x hx => hserve x (List.mem_cons_of_mem r hx)
    cases r with
    | down =>
      simp only [List.cons_append, get_treasure_map_from_known_ursulas]
      exact ih rest hrest
    | reply s c =>
      have hns : ¬ (s = 200 ∧ c ≠ []) := by
        rintro ⟨h200, hcne⟩
        subst h200
        simp only [servesMap] at hr
        simp [List.isEmpty_iff, hcne] at hr
      simp only [List.cons_append, get_treasure_map_from_known_ursulas, if_neg hns]
      exact ih rest hrest

/-- Claim C6: Bob.get_treasure_map_from_known_ursulas, iterating the
shuffled known nodes, skips nodes that raise NodeSeemsToBeDown (and any
answering without a 200 status and content); it returns the map decoded
from the first node that answers 200 with non-empty content; and when every
known node has been tried without one serving the map, it raises
TreasureMap.NowhereToBeFound (the iteration is a single finite pass, so it
does not block indefinitely). -/
theorem C6_get_treasure_map (decodeMap : List Nat → Except Unit (List Nat))
    (nodes : List NodeReply) :
    ((∀ r ∈ nodes, servesMap r = false) →
      get_treasure_map_from_known_ursulas decodeMap nodes
        = .error .nowhereToBeFound)
    ∧ (∀ (pre post : List NodeReply) (c tm : List Nat),
        nodes = pre ++ .reply 200 c :: post →
        (∀ r ∈ pre, servesMap r = false) →
        c ≠ [] → decodeMap c = .ok tm →
        get_treasure_map_from_known_ursulas decodeMap nodes = .ok tm) := by
  constructor
  · intro hall
    have h := gtm_skip_failing decodeMap nodes [] hall
    simpa using h
  · intro pre post c tm hnodes hpre hc hdec
    subst hnodes
    rw [gtm_skip_failing decodeMap pre (NodeReply.reply 200 c :: post) hpre]
    simp [get_treasure_map_from_known_ursulas, hc, hdec]

/-- Witness for C6: a down node and a 404 answer are skipped, the next node
serves the map; and a list of one down node plus an empty 200 answer ends
in NowhereToBeFound. -/
theorem C6_get_treasure_map_witness :
    get_treasure_map_from_known_ursulas (fun b => .ok b)
        [.down, .reply 404 [1], .reply 200 [5, 6]] = .ok [5, 6]
    ∧ get_treasure_map_from_known_ursulas (fun b => .ok b)
        [.down, .reply 200 []] = .error .nowhereToBeFound :=
  ⟨(C6_get_treasure_map (fun b => .ok b) [.down, .reply 404 [1], .reply 200 [5, 6]]).2
      [.down, .reply 404 [1]] [] [5, 6] [5, 6] rfl (by decide) (by decide) rfl,
   (C6_get_treasure_map (fun b => .ok b) [.down, .reply 200 []]).1 (by decide)⟩

/-- Helper: on a version beyond LEARNER_VERSION the core decoder raises
IsFromTheFuture, salvaging a leading 20-byte address when present. -/
theorem ufbc_future (lv version : Nat) (payload : List Nat)
    (toChecksum : List Nat → Nat) (nicknameOf : Nat → Nat)
    (splitNode : List Nat → Except NodeDecodeErr (List Nat))
    (hv : lv < version) :
    ∃ msg : FutureMessage,
      ursula_from_bytes_core lv toChecksum nicknameOf splitNode version payload
        = .error (.isFromTheFuture msg)
      ∧ msg.version = version ∧ msg.learnerVersion = lv
      ∧ (20 ≤ payload.length →
          msg.display = some (toChecksum (payload.take 20),
                              nicknameOf (toChecksum (payload.take 20))))
      ∧ (payload.length < 20 → msg.display = none) := by
  unfold ursula_from_bytes_core
  rw [if_pos hv]
  by_cases h20 : 20 ≤ payload.length
  · rw [if_pos h20]
    exact ⟨_, rfl, rfl, rfl, fun _ => rfl, fun hlt => absurd h20 (by omega)⟩
  · rw [if_neg h20]
    exact ⟨_, rfl, rfl, rfl, fun hle => absurd hle h20, fun _ => rfl⟩

/-- Helper: on a version within LEARNER_VERSION the core decoder delegates
to the node splitter. -/
theorem ufbc_current (lv version : Nat) (payload : List Nat)
    (toChecksum : List Nat → Nat) (nicknameOf : Nat → Nat)
    (splitNode : List Nat → Except NodeDecodeErr (List Nat))
    (hv : version ≤ lv) :
    ursula_from_bytes_core lv toChecksum nicknameOf splitNode version payload
      = splitNode payload := by
  unfold ursula_from_bytes_core
  rw [if_neg (by omega)]

/-- Claim C7: for every byte string whose leading big-endian u16 version
field exceeds LEARNER_VERSION, Ursula.from_bytes raises IsFromTheFuture
instead of returning a node; the message carries the offending and the
supported version, and when the remaining payload begins with a 20-byte
canonical address, that address is salvaged into the message as its
checksum form and nickname. -/
theorem C7_from_the_future (lv b0 b1 : Nat) (payload : List Nat)
    (toChecksum : List Nat → Nat) (nicknameOf : Nat → Nat)
    (splitNode : List Nat → Except NodeDecodeErr (List Nat))
    (hv : lv < b0 * 256 + b1) :
    ∃ msg : FutureMessage,
      ursula_from_bytes lv toChecksum nicknameOf splitNode (b0 :: b1 :: payload)
        = .error (.isFromTheFuture msg)
      ∧ msg.version = b0 * 256 + b1 ∧ msg.learnerVersion = lv
      ∧ (20 ≤ payload.length →
          msg.display = some (toChecksum (payload.take 20),
                              nicknameOf (toChecksum (payload.take 20))))
      ∧ (payload.length < 20 → msg.display = none) := by
  have h := ufbc_future lv (b0 * 256 + b1) payload toChecksum nicknameOf splitNode hv
  simpa only [ursula_from_bytes] using h

/-- Witness for C7: learner version 0, version field 1, a 25-byte payload;
the salvaged display pair is built from the first 20 payload bytes. -/
theorem C7_from_the_future_witness :
    ∃ msg : FutureMessage,
      ursula_from_bytes 0 (fun l => l.length) (fun x => x + 1) (fun p => .ok p)
          (0 :: 1 :: List.range 25) = .error (.isFromTheFuture msg)
      ∧ msg.version = 1 ∧ msg.learnerVersion = 0 ∧ msg.display = some (20, 21) := by
  obtain ⟨msg, h1, h2, h3, h4, _⟩ :=
    C7_from_the_future 0 0 1 (List.range 25) (fun l => l.length) (fun x => x + 1)
      (fun p => .ok p) (by omega)
  refine ⟨msg, h1, h2, h3, ?_⟩
  rw [h4 (by simp [List.length_range])]
  simp [List.length_take, List.length_range]

/-- Helper: one step of the batch loop on a record whose version check
raised IsFromTheFuture. -/
theorem batch_go_cons_future (lv : Nat) (tc : List Nat → Nat) (nn : Nat → Nat)
    (sn : List Nat → Except NodeDecodeErr (List Nat)) (ff : Bool) (b0 b1 : Nat)
    (p : List Nat) (rest : List (List Nat)) (msg : FutureMessage)
    (hmsg : ursula_from_bytes_core lv tc nn sn (b0 * 256 + b1) p
      = .error (.isFromTheFuture msg)) :
    batch_from_bytes_go lv tc nn sn ff ((b0 :: b1 :: p) :: rest)
      = if ff then .error (.isFromTheFuture msg)
        else batch_from_bytes_go lv tc nn sn ff rest := by
  conv_lhs => rw [batch_from_bytes_go.eq_def]
  dsimp only
  rw [hmsg]

/-- Helper: one step of the batch loop on a record that decoded. -/
theorem batch_go_cons_ok (lv : Nat) (tc : List Nat → Nat) (nn : Nat → Nat)
    (sn : List Nat → Except NodeDecodeErr (List Nat)) (ff : Bool) (b0 b1 : Nat)
    (p : List Nat) (rest : List (List Nat)) (u : List Nat)
    (hu : ursula_from_bytes_core lv tc nn sn (b0 * 256 + b1) p = .ok u) :
    batch_from_bytes_go lv tc nn sn ff ((b0 :: b1 :: p) :: rest)
      = match batch_from_bytes_go lv tc nn sn ff rest with
        | .ok us => .ok (u :: us)
        | .error e => .error e := by
  conv_lhs => rw [batch_from_bytes_go.eq_def]
  dsimp only
  rw [hu]

/-- Helper: with fail_fast false and every current-version record decoding,
the batch loop skips future-version records and collects the rest in
order. -/
theorem batch_go_false_ok (lv : Nat) (tc : List Nat → Nat) (nn : Nat → Nat)
    (sn : List Nat → Except NodeDecodeErr (List Nat)) :
    ∀ recs : List (Nat × Nat × List Nat),
    (∀ r ∈ recs, recVersion r ≤ lv → ∃ u, sn r.2.2 = .ok u) →
    batch_from_bytes_go lv tc nn sn false (recs.map recBytes)
      = .ok (recs.filterMap fun r =>
          if recVersion r ≤ lv then exceptToOption (sn r.2.2) else none) := by
  intro recs
  induction recs with
  | nil => intro _; rfl
  | cons r rest ih =>
    intro hok
    obtain ⟨b0, b1, p⟩ := r
    have hokrest : ∀ x ∈ rest, recVersion x ≤ lv → ∃ u, sn x.2.2 = .ok u :=
      fun x hx => hok x (List.mem_cons_of_mem _ hx)
    by_cases hle : recVersion (b0, b1, p) ≤ lv
    · obtain ⟨u, hu⟩ := hok (b0, b1, p) (List.mem_cons_self _ _) hle
      have hu2 : ursula_from_bytes_core lv tc nn sn (b0 * 256 + b1) p = .ok u := by
        rw [ufbc_current lv (b0 * 256 + b1) p tc nn sn hle]
        exact hu
      rw [List.map_cons,
        show recBytes (b0, b1, p) = b0 :: b1 :: p from rfl,
        batch_go_cons_ok lv tc nn sn false b0 b1 p (rest.map recBytes) u hu2,
        ih hokrest]
      simp [List.filterMap_cons, hle, hu, exceptToOption]
    · have hv : lv < recVersion (b0, b1, p) := Nat.lt_of_not_le hle
      obtain ⟨msg, hmsg, -⟩ := ufbc_future lv (b0 * 256 + b1) p tc nn sn hv
      rw [List.map_cons,
        show recBytes (b0, b1, p) = b0 :: b1 :: p from rfl,
        batch_go_cons_future lv tc nn sn false b0 b1 p (rest.map recBytes) msg hmsg,
        if_neg (by decide : ¬ (false = true)), ih hokrest]
      simp [List.filterMap_cons, hle]

/-- Helper: with fail_fast true, a future-version record somewhere in the
batch (all records before it decoding) makes the loop raise
IsFromTheFuture. -/
theorem batch_go_true_future (lv : Nat) (tc : List Nat → Nat) (nn : Nat → Nat)
    (sn : List Nat → Except NodeDecodeErr (List Nat)) :
    ∀ recs : List (Nat × Nat × List Nat),
    (∀ r ∈ recs, recVersion r ≤ lv → ∃ u, sn r.2.2 = .ok u) →
    (∃ r ∈ recs, lv < recVersion r) →
    ∃ msg, batch_from_bytes_go lv tc nn sn true (recs.map recBytes)
      = .error (.isFromTheFuture msg) := by
  intro recs
  induction recs with
  | nil =>
    rintro _ ⟨r, hr, -⟩
    exact absurd hr (List.not_mem_nil r)
  | cons r rest ih =>
    rintro hok ⟨x, hx, hxv⟩
    obtain ⟨b0, b1, p⟩ := r
    have hokrest : ∀ y ∈ rest, recVersion y ≤ lv → ∃ u, sn y.2.2 = .ok u :=
      fun y hy => hok y (List.mem_cons_of_mem _ hy)
    by_cases hle : recVersion (b0, b1, p) ≤ lv
    · obtain ⟨u, hu⟩ := hok (b0, b1, p) (List.mem_cons_self _ _) hle
      have hu2 : ursula_from_bytes_core lv tc nn sn (b0 * 256 + b1) p = .ok u := by
        rw [ufbc_current lv (b0 * 256 + b1) p tc nn sn hle]
        exact hu
      have hxrest : x ∈ rest := by
        rcases List.mem_cons.mp hx with h1 | h2
        · rw [h1] at hxv; omega
        · exact h2
      obtain ⟨msg, hmsg⟩ := ih hokrest ⟨x, hxrest, hxv⟩
      refine ⟨msg, ?_⟩
      rw [List.map_cons,
        show recBytes (b0, b1, p) = b0 :: b1 :: p from rfl,
        batch_go_cons_ok lv tc nn sn true b0 b1 p (rest.map recBytes) u hu2,
        hmsg]
    · have hv : lv < recVersion (b0, b1, p) := Nat.lt_of_not_le hle
      obtain ⟨msg, hmsg, -⟩ := ufbc_future lv (b0 * 256 + b1) p tc nn sn hv
      refine ⟨msg, ?_⟩
      rw [List.map_cons,
        show recBytes (b0, b1, p) = b0 :: b1 :: p from rfl,
        batch_go_cons_future lv tc nn sn true b0 b1 p (rest.map recBytes) msg hmsg,
        if_pos rfl]

/-- Claim C10: Ursula.batch_from_bytes with fail_fast = false skips exactly
the records whose version exceeds LEARNER_VERSION and returns the decoded
nodes of all remaining records in input order (provided each current-version
record decodes), whereas with fail_fast = true the presence of any
future-version record makes the whole batch raise IsFromTheFuture, so that
nothing is returned. -/
theorem C10_batch_from_bytes (lv : Nat) (toChecksum : List Nat → Nat)
    (nicknameOf : Nat → Nat)
    (splitNode : List Nat → Except NodeDecodeErr (List Nat))
    (recs : List (Nat × Nat × List Nat))
    (hok : ∀ r ∈ recs, recVersion r ≤ lv → ∃ u, splitNode r.2.2 = .ok u) :
    batch_from_bytes lv toChecksum nicknameOf splitNode (recs.map recBytes) false
      = .ok (recs.filterMap (fun r =>
          if recVersion r ≤ lv then exceptToOption (splitNode r.2.2) else none))
    ∧ ((∃ r ∈ recs, lv < recVersion r) →
        ∃ msg, batch_from_bytes lv toChecksum nicknameOf splitNode
            (recs.map recBytes) true = .error (.isFromTheFuture msg)) :=
  ⟨batch_go_false_ok lv toChecksum nicknameOf splitNode recs hok,
   batch_go_true_future lv toChecksum nicknameOf splitNode recs hok⟩

/-- Witness for C10: learner version 5 and three records with versions 3,
9 and 4: the non-strict batch returns the first and third decoded records
in order, the fail-fast batch raises IsFromTheFuture. -/
theorem C10_batch_from_bytes_witness :
    batch_from_bytes 5 (fun l => l.length) (fun x => x) (fun p => .ok p)
        ([(0, 3, [7]), (0, 9, [8]), (0, 4, [6])].map recBytes) false = .ok [[7], [6]]
    ∧ ∃ msg, batch_from_bytes 5 (fun l => l.length) (fun x => x) (fun p => .ok p)
        ([(0, 3, [7]), (0, 9, [8]), (0, 4, [6])].map recBytes) true
        = .error (.isFromTheFuture msg) := by
  have h := C10_batch_from_bytes 5 (fun l => l.length) (fun x => x) (fun p => .ok p)
      [(0, 3, [7]), (0, 9, [8]), (0, 4, [6])]
      (by intro r _ _; exact ⟨r.2.2, rfl⟩)
  refine ⟨?_, h.2 ⟨(0, 9, [8]), by simp, by decide⟩⟩
  rw [h.1]
  rfl

/-- Claim C8 counterexample: federated mode with n = 5, three known nodes
and the wait expiring (good_to_go sentinel false): Alice.grant raises a
plain ValueError, not the NotEnoughTeachers exception the claim names. -/
theorem C8_grant_raises_value_error :
    grant_federated_selection 5 [0, 1, 2] [0, 1, 2] false [] sampleTake
      = .valueError
    ∧ grant_federated_selection 5 [0, 1, 2] [0, 1, 2] false [] sampleTake
      ≠ .notEnoughTeachers := by
  decide

/-- Claim C8 (amended): in federated mode, when fewer than n proxies are
known and the wait with the given timeout expires before n nodes become
known, Alice.grant raises ValueError rather than proceeding to select
proxies; when the wait succeeds with at least n nodes known and the
handpicked set is short of n, the missing n - |handpicked| proxies are
drawn by the external random.sample (random selection without replacement,
so distinct and all from the known nodes) and merged into the handpicked
set before proceeding. -/
theorem C8_grant_federated (n : Nat) (knownBefore knownAfter handpicked : List Nat)
    (sample : List Nat → Nat → List Nat)
    (hsample : (sample knownAfter (n - handpicked.length)).length
        = n - handpicked.length
      ∧ (sample knownAfter (n - handpicked.length)).Nodup
      ∧ ∀ x ∈ sample knownAfter (n - handpicked.length), x ∈ knownAfter)
    (hb : knownBefore.length < n) :
    grant_federated_selection n knownBefore knownAfter false handpicked sample
      = .valueError
    ∧ (handpicked.length < n →
        ∃ s : List Nat,
          grant_federated_selection n knownBefore knownAfter true handpicked sample
            = .proceed (listUnion handpicked s)
          ∧ s.length = n - handpicked.length ∧ s.Nodup
          ∧ ∀ x ∈ s, x ∈ knownAfter) := by
  constructor
  · simp [grant_federated_selection, hb]
  · intro hh
    refine ⟨sample knownAfter (n - handpicked.length), ?_, hsample⟩
    simp [grant_federated_selection, hb, hh]

/-- Witness for C8 (amended): n = 5, three nodes known at entry, six after
the wait, one handpicked proxy; on a failed wait grant raises ValueError,
on a successful wait it proceeds with four sampled nodes merged in. -/
theorem C8_grant_federated_witness :
    grant_federated_selection 5 [0, 1, 2] [10, 11, 12, 13, 14, 15] false [7] sampleTake
      = .valueError
    ∧ ∃ s : List Nat,
        grant_federated_selection 5 [0, 1, 2] [10, 11, 12, 13, 14, 15] true [7] sampleTake
          = .proceed (listUnion [7] s)
        ∧ s.length = 5 - ([7] : List Nat).length ∧ s.Nodup
        ∧ ∀ x ∈ s, x ∈ [10, 11, 12, 13, 14, 15] := by
  have h := C8_grant_federated 5 [0, 1, 2] [10, 11, 12, 13, 14, 15] [7] sampleTake
      (by refine ⟨by decide, by decide, ?_⟩; decide) (by decide)
  exact ⟨h.1, h.2 (by decide)⟩

end NuCypher
